import Mathlib

/-!
Verification of the nspyre data server (`src/nspyre/dataserv/dataserv.py`)
against its natural-language specification.

The development shallowly embeds the broker's data model and operations:

* the framed transport (`_CustomSock.send_msg` / `_CustomSock.recv_msg`),
  with byte strings as `List Nat`;
* the bounded drop-oldest queue (`asyncio.Queue` with `maxsize = QUEUE_SIZE`
  together with `_queue_flush_and_put`);
* the per-dataset pipeline (`_DataSet`: `source`, `sinks`, `data`, the
  source-loop body of `_source_coro`, the seeding in `run_sink`, the queue
  drain of `_sink_coro`);
* the registry and negotiation handler (`DataServer.datasets`,
  `DataServer._negotiation`), with the possible I/O outcomes at each
  `recv`/`send` point supplied as explicit inputs.

Python `dict`s are embedded as association lists preserving insertion
order; `asyncio` coroutines become pure step functions driven by explicit
event or message traces.  Dataset names are kept as their UTF-8 byte
strings (UTF-8 decoding is injective, so a registry keyed by the decoded
`str` and one keyed by the validated bytes agree).
-/

namespace Dataserv

/-- An opaque byte string (Python `bytes`): a list of byte values. -/
abbrev Bytes := List Nat

/-! ### Shared constants (dataserv.py lines 31-65) -/

/-- Idle period (s) after which a sender emits an empty keepalive frame. -/
def KEEPALIVE_TIMEOUT : Nat := 3

/-- Time budget (s) a sender has for useful work. -/
def OPS_TIMEOUT : Nat := 10

/-- Receive-side deadline (s): `(KEEPALIVE_TIMEOUT + OPS_TIMEOUT) + 1`. -/
def TIMEOUT : Nat := (KEEPALIVE_TIMEOUT + OPS_TIMEOUT) + 1

/-- Maximum size of each sink's data queue. -/
def QUEUE_SIZE : Nat := 5

/-- Length (bytes) of the header section identifying the payload size. -/
def HEADER_MSG_LEN : Nat := 8

/-- Role tag sent by a client requesting server info (`b'\xDE'`). -/
def NEGOTIATION_INFO : Bytes := [0xDE]

/-- Role tag sent by a client that will source data (`b'\xBE'`). -/
def NEGOTIATION_SOURCE : Bytes := [0xBE]

/-- Role tag sent by a client that will sink data (`b'\xEF'`). -/
def NEGOTIATION_SINK : Bytes := [0xEF]

/-! ### Framed transport (`_CustomSock`, dataserv.py lines 68-110)

`send_msg` packages `len(msg).to_bytes(HEADER_MSG_LEN, byteorder='little')`
followed by the payload; `to_bytes` raises `OverflowError` when the length
does not fit in 8 bytes, so the embedding returns `Option`.  `recv_msg`
reads exactly `HEADER_MSG_LEN` bytes, decodes them little-endian, then reads
exactly that many payload bytes; the embedding consumes a byte stream and
fails (`IncompleteReadError`) when the stream is exhausted mid-frame. -/

/-- Little-endian encoding of `n` into exactly `k` bytes
(Python `n.to_bytes(k, byteorder='little')`, value range checked by the
caller `send_msg`). -/
def natToBytesLE : Nat → Nat → List Nat
  | 0, _ => []
  | k + 1, n => n % 256 :: natToBytesLE k (n / 256)

/-- Little-endian decoding of a byte list
(Python `int.from_bytes(bs, byteorder='little')`). -/
def bytesToNatLE : List Nat → Nat
  | [] => 0
  | b :: bs => b + 256 * bytesToNatLE bs

/-- Embedding of `_CustomSock.send_msg`: the framed wire bytes for `msg`,
or `none` when `len(msg).to_bytes(8, 'little')` would overflow. -/
def send_msg (msg : Bytes) : Option Bytes :=
  if msg.length < 256 ^ HEADER_MSG_LEN then
    some (natToBytesLE HEADER_MSG_LEN msg.length ++ msg)
  else
    none

/-- Embedding of `_CustomSock.recv_msg` on an available byte stream: read
exactly `HEADER_MSG_LEN` header bytes, decode the payload length, read
exactly that many payload bytes; return the payload and the unconsumed
rest, or `none` when the stream ends mid-frame (`IncompleteReadError`). -/
def recv_msg (stream : Bytes) : Option (Bytes × Bytes) :=
  if HEADER_MSG_LEN ≤ stream.length then
    let msg_len := bytesToNatLE (stream.take HEADER_MSG_LEN)
    let rest := stream.drop HEADER_MSG_LEN
    if msg_len ≤ rest.length then
      some (rest.take msg_len, rest.drop msg_len)
    else
      none
  else
    none

/-! ### Bounded drop-oldest queue
(`_queue_flush_and_put`, dataserv.py lines 113-118, and the
`queue.put_nowait` / `except asyncio.QueueFull` pattern of `_source_coro`,
lines 220-232)

An `asyncio.Queue(maxsize = QUEUE_SIZE)` is embedded as a `List` in FIFO
order (front = next `get`).  `put_nowait` raises `QueueFull` exactly when
`qsize() >= maxsize`. -/

/-- The `for _ in range(queue.qsize()): queue.get_nowait()` loop of
`_queue_flush_and_put`: pop the front element `n` times. -/
def popN (n : Nat) (q : List Bytes) : List Bytes :=
  match n with
  | 0 => q
  | n + 1 => popN n q.tail

/-- Embedding of `_queue_flush_and_put`: empty the queue, then put a single
item onto it. -/
def _queue_flush_and_put (queue : List Bytes) (item : Bytes) : List Bytes :=
  popN queue.length queue ++ [item]

/-- The enqueue step of `_source_coro` (lines 220-232): `put_nowait` appends
when there is capacity; on `asyncio.QueueFull` the queue is flushed and only
the new item is placed on it. -/
def sink_enqueue (queue : List Bytes) (item : Bytes) : List Bytes :=
  if queue.length < QUEUE_SIZE then
    queue ++ [item]
  else
    _queue_flush_and_put queue item

/-! ### Dataset data model (`_DataSet`, dataserv.py lines 144-161)

A `_DataSet` holds an optional source attachment (`self.source`, abstracted
to the peer's identity), a dict of sink attachments keyed by peer address
(`self.sinks`, abstracted to an insertion-ordered association list mapping
a sink identifier to its queue), and the most recent payload
(`self.data`). -/

/-- Embedding of `_DataSet`: `source` / `sinks` / `data` fields.  Task and
socket handles carry no payload-relevant state and are abstracted to the
peer identifier. -/
structure DataSet where
  source : Option Nat
  sinks : List (Nat × List Bytes)
  data : Option Bytes
  deriving DecidableEq

/-- A fresh `_DataSet()` (its `__init__`): no source, no sinks, no data. -/
def DataSet.init : DataSet := { source := none, sinks := [], data := none }

/-- One iteration body of `_source_coro` (lines 215-238) for a successfully
received payload `new_pickle`: an empty payload is a keepalive and does
nothing; a non-empty payload is stored in `self.data` and enqueued (with the
drop-oldest `QueueFull` handler) onto every current sink's queue. -/
def source_step (d : DataSet) (new_pickle : Bytes) : DataSet :=
  if new_pickle.length ≠ 0 then
    { d with
      data := some new_pickle,
      sinks := d.sinks.map fun sink => (sink.1, sink_enqueue sink.2 new_pickle) }
  else
    d

/-- Outcome of one `recv_msg` awaited under `asyncio.wait_for`: a payload,
or a failure (`asyncio.IncompleteReadError` / `asyncio.TimeoutError`). -/
inductive RecvResult where
  | ok (payload : Bytes)
  | fail
  deriving DecidableEq

/-- The full `_source_coro` loop (lines 202-243) driven by a script of
receive outcomes: each successful receive runs `source_step`; the first
failed receive raises `CancelledError` and the `finally` block clears
`self.source` (and only `self.source`), ending the loop.  An unfinished
script leaves the dataset as is (the loop is still running). -/
def source_loop (d : DataSet) : List RecvResult → DataSet
  | [] => d
  | RecvResult.ok p :: rest => source_loop (source_step d p) rest
  | RecvResult.fail :: _ => { d with source := none }

/-- The seed queue built by `run_sink` (lines 173-190): a fresh
`asyncio.Queue` that receives `self.data` via `put_nowait` when
`if self.data:` holds, i.e. when `data` is neither `None` nor empty. -/
def seedQueue (d : DataSet) : List Bytes :=
  match d.data with
  | some b => if b.length ≠ 0 then [b] else []
  | none => []

/-- Lookup in the `self.sinks` dict by sink identifier. -/
def lookupSink : List (Nat × List Bytes) → Nat → Option (List Bytes)
  | [], _ => none
  | (k, q) :: rest, id => if k = id then some q else lookupSink rest id

/-- Removal from the `self.sinks` dict (`self.sinks.pop(sink_id)` in the
`finally` block of `_sink_coro`, line 285). -/
def removeSink : List (Nat × List Bytes) → Nat → List (Nat × List Bytes)
  | [], _ => []
  | (k, q) :: rest, id => if k = id then rest else (k, q) :: removeSink rest id

/-- The operations that mutate one `_DataSet` over its lifetime. -/
inductive DSOp where
  /-- `run_source` (lines 192-196): store the source attachment. -/
  | srcAttach (sid : Nat)
  /-- One received frame in `_source_coro` (lines 215-238). -/
  | srcRecv (p : Bytes)
  /-- The `finally` block of `_source_coro` (line 243): clear `source`. -/
  | srcDrop
  /-- `run_sink` (lines 173-190): add a sink with its seeded queue
  (`assert sink_id not in self.sinks` makes the present case unreachable,
  embedded as a no-op). -/
  | sinkAttach (id : Nat)
  /-- The `finally` block of `_sink_coro` (line 285): drop the sink. -/
  | sinkDrop (id : Nat)
  /-- One dequeue by `_sink_coro` (lines 254-263): the front payload leaves
  the queue (a timeout on an empty queue leaves the dataset unchanged). -/
  | sinkGet (id : Nat)
  deriving DecidableEq

/-- Apply one dataset operation, mirroring the corresponding code path. -/
def applyOp (d : DataSet) : DSOp → DataSet
  | DSOp.srcAttach sid => { d with source := some sid }
  | DSOp.srcRecv p => source_step d p
  | DSOp.srcDrop => { d with source := none }
  | DSOp.sinkAttach id =>
    if (lookupSink d.sinks id).isSome then d
    else { d with sinks := d.sinks ++ [(id, seedQueue d)] }
  | DSOp.sinkDrop id => { d with sinks := removeSink d.sinks id }
  | DSOp.sinkGet id =>
    match lookupSink d.sinks id with
    | some (_ :: rest) =>
      { d with sinks := d.sinks.map fun s => if s.1 = id then (id, rest) else s }
    | _ => d

/-- The dataset state reached from a fresh `_DataSet()` by a sequence of
operations. -/
def reach (ops : List DSOp) : DataSet := ops.foldl applyOp DataSet.init

/-! ### Dataset registry and negotiation
(`DataServer`, dataserv.py lines 289-517)

`self.datasets` is a `dict` from name to `_DataSet`, embedded as an
insertion-ordered association list keyed by the name's UTF-8 bytes. -/

/-- The dataset registry `DataServer.datasets`. -/
abbrev Registry := List (Bytes × DataSet)

/-- Dict lookup `self.datasets[name]` / membership `name in self.datasets`. -/
def lookupDS : Registry → Bytes → Option DataSet
  | [], _ => none
  | (k, d) :: rest, n => if k = n then some d else lookupDS rest n

/-- Dict assignment for a key that is present: replace its value in place
(insertion order is preserved, as for a Python dict). -/
def updateDS : Registry → Bytes → DataSet → Registry
  | [], _, _ => []
  | (k, d) :: rest, n, d' =>
    if k = n then (k, d') :: rest else (k, d) :: updateDS rest n d'

/-- Byte-level `','.join(names)`: the UTF-8 comma (0x2C) between the
names' UTF-8 byte strings. -/
def joinBytes : List Bytes → Bytes
  | [] => []
  | [n] => n
  | n :: m :: rest => n ++ 0x2C :: joinBytes (m :: rest)

/-- The info reply payload `','.join(list(self.datasets.keys())).encode()`
(line 401). -/
def infoPayload (r : Registry) : Bytes := joinBytes (r.map Prod.fst)

/-- Continuation byte test for UTF-8 validation: `0x80-0xBF`. -/
def isCont (b : Nat) : Bool := decide (0x80 ≤ b ∧ b ≤ 0xBF)

/-- Validity of a byte string as UTF-8 (RFC 3629), the success condition of
Python's strict `bytes.decode()` used at lines 435 and 478: ASCII bytes,
2-byte forms `C2-DF`, 3-byte forms `E0 A0-BF`, `E1-EC`, `ED 80-9F`
(surrogates excluded), `EE-EF`, and 4-byte forms `F0 90-BF`, `F1-F3`,
`F4 80-8F` (values above U+10FFFF excluded); overlong forms rejected. -/
def validUTF8 : List Nat → Bool
  | [] => true
  | b :: rest =>
    if b ≤ 0x7F then validUTF8 rest
    else if 0xC2 ≤ b ∧ b ≤ 0xDF then
      match rest with
      | c1 :: rest' => isCont c1 && validUTF8 rest'
      | _ => false
    else if b = 0xE0 then
      match rest with
      | c1 :: c2 :: rest' =>
        decide (0xA0 ≤ c1 ∧ c1 ≤ 0xBF) && isCont c2 && validUTF8 rest'
      | _ => false
    else if 0xE1 ≤ b ∧ b ≤ 0xEC then
      match rest with
      | c1 :: c2 :: rest' => isCont c1 && isCont c2 && validUTF8 rest'
      | _ => false
    else if b = 0xED then
      match rest with
      | c1 :: c2 :: rest' =>
        decide (0x80 ≤ c1 ∧ c1 ≤ 0x9F) && isCont c2 && validUTF8 rest'
      | _ => false
    else if 0xEE ≤ b ∧ b ≤ 0xEF then
      match rest with
      | c1 :: c2 :: rest' => isCont c1 && isCont c2 && validUTF8 rest'
      | _ => false
    else if b = 0xF0 then
      match rest with
      | c1 :: c2 :: c3 :: rest' =>
        decide (0x90 ≤ c1 ∧ c1 ≤ 0xBF) && isCont c2 && isCont c3 && validUTF8 rest'
      | _ => false
    else if 0xF1 ≤ b ∧ b ≤ 0xF3 then
      match rest with
      | c1 :: c2 :: c3 :: rest' =>
        isCont c1 && isCont c2 && isCont c3 && validUTF8 rest'
      | _ => false
    else if b = 0xF4 then
      match rest with
      | c1 :: c2 :: c3 :: rest' =>
        decide (0x80 ≤ c1 ∧ c1 ≤ 0x8F) && isCont c2 && isCont c3 && validUTF8 rest'
      | _ => false
    else false

/-- The source-attach decision of `_negotiation` (lines 437-458) given the
decoded dataset name: create the dataset if absent; reject (close) when it
already has a live source; otherwise record the client as the source.
Returns whether the client attached, together with the new registry. -/
def source_attach (r : Registry) (name : Bytes) (sid : Nat) : Bool × Registry :=
  let r1 := if (lookupDS r name).isSome then r else r ++ [(name, DataSet.init)]
  match lookupDS r1 name with
  | none => (false, r1)
  | some d =>
    if d.source.isSome then (false, r1)
    else (true, updateDS r1 name { d with source := some sid })

/-- The sink-attach decision of `_negotiation` (lines 461-495) given the
decoded dataset name: reject (close) when the dataset does not exist;
otherwise add the client as a new sink with its seeded queue
(`run_sink`). -/
def sink_attach (r : Registry) (name : Bytes) (id : Nat) : Bool × Registry :=
  match lookupDS r name with
  | none => (false, r)
  | some d => (true, updateDS r name (applyOp d (DSOp.sinkAttach id)))

/-- The negotiation role of a client that reached a steady-state loop. -/
inductive Role where
  | source
  | sink
  deriving DecidableEq

/-- The I/O outcomes seen by one run of `_negotiation`: the first framed
receive (role tag), the second framed receive (dataset name, read only for
source/sink roles), and whether the info reply send succeeds. -/
structure NegEnv where
  first : RecvResult
  second : RecvResult
  infoSendOk : Bool
  deriving DecidableEq

/-- The observable outcome of one run of `_negotiation`: the registry
afterwards, whether the handler closed the connection, which steady-state
loop (if any) the client entered, the info reply (if sent), and whether an
exception escaped the handler. -/
structure NegResult where
  registry : Registry
  closedByHandler : Bool
  attached : Option (Role × Bytes)
  sentInfo : Option Bytes
  raised : Bool
  deriving DecidableEq

/-- Embedding of `DataServer._negotiation` (lines 369-517) up to the point
where a client enters its steady-state loop.  `cid` identifies the client.
Mirrored paths: first-receive failure closes; tag `0xDE` replies with
`infoPayload` (a failed reply send is logged) and closes; tags `0xBE`/`0xEF`
read the name frame (failure closes), then `bytes.decode()` — whose
`UnicodeDecodeError` on invalid UTF-8 is caught by no `except` clause and
escapes the handler without a close — then attach or close; any other tag
closes. -/
def negotiation (r : Registry) (cid : Nat) (env : NegEnv) : NegResult :=
  match env.first with
  | RecvResult.fail =>
    { registry := r, closedByHandler := true, attached := none,
      sentInfo := none, raised := false }
  | RecvResult.ok client_type =>
    if client_type = NEGOTIATION_INFO then
      { registry := r, closedByHandler := true, attached := none,
        sentInfo := if env.infoSendOk then some (infoPayload r) else none,
        raised := false }
    else if client_type = NEGOTIATION_SOURCE then
      match env.second with
      | RecvResult.fail =>
        { registry := r, closedByHandler := true, attached := none,
          sentInfo := none, raised := false }
      | RecvResult.ok name_bytes =>
        if validUTF8 name_bytes then
          match source_attach r name_bytes cid with
          | (true, r') =>
            { registry := r', closedByHandler := false,
              attached := some (Role.source, name_bytes),
              sentInfo := none, raised := false }
          | (false, r') =>
            { registry := r', closedByHandler := true, attached := none,
              sentInfo := none, raised := false }
        else
          { registry := r, closedByHandler := false, attached := none,
            sentInfo := none, raised := true }
    else if client_type = NEGOTIATION_SINK then
      match env.second with
      | RecvResult.fail =>
        { registry := r, closedByHandler := true, attached := none,
          sentInfo := none, raised := false }
      | RecvResult.ok name_bytes =>
        if validUTF8 name_bytes then
          match sink_attach r name_bytes cid with
          | (true, r') =>
            { registry := r', closedByHandler := false,
              attached := some (Role.sink, name_bytes),
              sentInfo := none, raised := false }
          | (false, r') =>
            { registry := r', closedByHandler := true, attached := none,
              sentInfo := none, raised := false }
        else
          { registry := r, closedByHandler := false, attached := none,
            sentInfo := none, raised := true }
    else
      { registry := r, closedByHandler := true, attached := none,
        sentInfo := none, raised := false }

/-! ### Per-sink delivery trace (`_source_coro` enqueue / `_sink_coro`
dequeue, dataserv.py lines 215-238 and 254-276)

The interaction between the source loop and one sink's loop, as seen from
that sink's queue: a source send enqueues every non-empty payload (empty
payloads are keepalives and are skipped); a sink dequeue takes the front of
the queue and hands it to `send_msg` (an empty queue times out, emitting a
keepalive instead). -/

/-- One sink's view of the pipeline: its queue, the payloads it has taken
from the queue (in order), and the payloads the source has sent (in
order). -/
structure SinkTrace where
  queue : List Bytes
  received : List Bytes
  sent : List Bytes
  deriving DecidableEq

/-- An event visible to one sink: the source receives a payload frame, or
the sink performs one `queue.get`. -/
inductive SinkEv where
  | srcSend (p : Bytes)
  | dequeue
  deriving DecidableEq

/-- One event step: `srcSend p` records the send and, when `p` is
non-empty, enqueues it with drop-oldest semantics (lines 215-238);
`dequeue` pops the queue front into `received`, or does nothing on an empty
queue (the `asyncio.TimeoutError` keepalive branch, lines 264-269). -/
def sinkStep (s : SinkTrace) : SinkEv → SinkTrace
  | SinkEv.srcSend p =>
    if p.length ≠ 0 then
      { queue := sink_enqueue s.queue p, received := s.received,
        sent := s.sent ++ [p] }
    else
      { s with sent := s.sent ++ [p] }
  | SinkEv.dequeue =>
    match s.queue with
    | [] => s
    | x :: rest => { queue := rest, received := s.received ++ [x], sent := s.sent }

/-- Run a sink trace from a starting state. -/
def sinkRun (s : SinkTrace) (evs : List SinkEv) : SinkTrace := evs.foldl sinkStep s

/-- The non-empty payloads the source has sent, in order. -/
def nonEmptySent (s : SinkTrace) : List Bytes :=
  s.sent.filter fun p => decide (p.length ≠ 0)

/-! ## Theorems -/

/-! ### Framing helper lemmas -/

theorem natToBytesLE_length (k n : Nat) : (natToBytesLE k n).length = k := by
  induction k generalizing n with
  | zero => rfl
  | succ k ih => simp [natToBytesLE, ih]

theorem bytesToNatLE_natToBytesLE (k n : Nat) (h : n < 256 ^ k) :
    bytesToNatLE (natToBytesLE k n) = n := by
  induction k generalizing n with
  | zero =>
    simp only [natToBytesLE, bytesToNatLE]
    omega
  | succ k ih =>
    have hdiv : n / 256 < 256 ^ k := by
      rw [Nat.div_lt_iff_lt_mul (by norm_num : 0 < 256)]
      calc n < 256 ^ (k + 1) := h
        _ = 256 ^ k * 256 := by ring
    simp only [natToBytesLE, bytesToNatLE, ih (n / 256) hdiv]
    omega

/-- C3: Framing round-trip.  For every byte string `b` whose length fits the
8-byte header (every Python `bytes` object does), `send_msg` produces the
frame `HEADER || PAYLOAD` where `HEADER` is the 8-byte little-endian length
of `b`, the frame is exactly `8 + len(b)` bytes, and `recv_msg` on that frame
returns `b` with nothing left over — including for empty `b`. -/
theorem framing_roundtrip (b : Bytes) (h : b.length < 256 ^ HEADER_MSG_LEN) :
    ∃ frame, send_msg b = some frame ∧
      frame = natToBytesLE HEADER_MSG_LEN b.length ++ b ∧
      frame.length = HEADER_MSG_LEN + b.length ∧
      recv_msg frame = some (b, []) := by
  have hlen : (natToBytesLE HEADER_MSG_LEN b.length).length = HEADER_MSG_LEN :=
    natToBytesLE_length _ _
  refine ⟨natToBytesLE HEADER_MSG_LEN b.length ++ b, ?_, rfl, ?_, ?_⟩
  · simp [send_msg, h]
  · simp [hlen]
  · have htake : (natToBytesLE HEADER_MSG_LEN b.length ++ b).take HEADER_MSG_LEN =
        natToBytesLE HEADER_MSG_LEN b.length := List.take_left' hlen
    have hdrop : (natToBytesLE HEADER_MSG_LEN b.length ++ b).drop HEADER_MSG_LEN = b :=
      List.drop_left' hlen
    simp only [recv_msg, List.length_append, hlen, htake, hdrop,
      bytesToNatLE_natToBytesLE _ _ h]
    rw [if_pos (by omega), if_pos (le_refl _)]
    simp

/-- Witness for C3 at the concrete payload `b"hi" = [104, 105]`. -/
theorem framing_roundtrip_witness :
    ([104, 105] : Bytes).length < 256 ^ HEADER_MSG_LEN ∧
    ∃ frame, send_msg [104, 105] = some frame ∧
      frame = natToBytesLE HEADER_MSG_LEN ([104, 105] : Bytes).length ++ [104, 105] ∧
      frame.length = HEADER_MSG_LEN + ([104, 105] : Bytes).length ∧
      recv_msg frame = some ([104, 105], []) :=
  ⟨by decide, framing_roundtrip [104, 105] (by decide)⟩

/-! ### Queue lemmas -/

theorem popN_eq_drop (n : Nat) (q : List Bytes) : popN n q = q.drop n := by
  induction n generalizing q with
  | zero => rfl
  | succ n ih => cases q <;> simp [popN, ih]

theorem queue_flush_and_put_eq (q : List Bytes) (item : Bytes) :
    _queue_flush_and_put q item = [item] := by
  simp [_queue_flush_and_put, popN_eq_drop]

theorem sink_enqueue_length_le (q : List Bytes) (item : Bytes) :
    (sink_enqueue q item).length ≤ QUEUE_SIZE := by
  by_cases h : q.length < QUEUE_SIZE
  · simp only [sink_enqueue, if_pos h, List.length_append, List.length_cons,
      List.length_nil]
    omega
  · unfold sink_enqueue
    rw [if_neg h, queue_flush_and_put_eq]
    simp [QUEUE_SIZE]

theorem lookupSink_mem {l : List (Nat × List Bytes)} {id : Nat} {q : List Bytes}
    (h : lookupSink l id = some q) : (id, q) ∈ l := by
  induction l with
  | nil => simp [lookupSink] at h
  | cons hd tl ih =>
    obtain ⟨k, q'⟩ := hd
    simp only [lookupSink] at h
    by_cases hk : k = id
    · rw [if_pos hk] at h
      simp only [Option.some.injEq] at h
      subst hk h
      exact List.mem_cons_self _ _
    · rw [if_neg hk] at h
      exact List.mem_cons_of_mem _ (ih h)

theorem mem_removeSink {l : List (Nat × List Bytes)} {id : Nat}
    {e : Nat × List Bytes} (h : e ∈ removeSink l id) : e ∈ l := by
  induction l with
  | nil => simp [removeSink] at h
  | cons hd tl ih =>
    obtain ⟨k, q⟩ := hd
    simp only [removeSink] at h
    by_cases hk : k = id
    · rw [if_pos hk] at h
      exact List.mem_cons_of_mem _ h
    · rw [if_neg hk] at h
      rcases List.mem_cons.mp h with h1 | h2
      · exact h1 ▸ List.mem_cons_self _ _
      · exact List.mem_cons_of_mem _ (ih h2)

theorem seedQueue_length_le (d : DataSet) : (seedQueue d).length ≤ 1 := by
  unfold seedQueue
  cases d.data with
  | none => simp
  | some b =>
    by_cases hb : b.length ≠ 0
    · simp [hb]
    · simp [hb]

theorem applyOp_queues_bounded (d : DataSet) (op : DSOp)
    (hd : ∀ e ∈ d.sinks, e.2.length ≤ QUEUE_SIZE) :
    ∀ e ∈ (applyOp d op).sinks, e.2.length ≤ QUEUE_SIZE := by
  cases op with
  | srcAttach sid => exact hd
  | srcDrop => exact hd
  | srcRecv p =>
    simp only [applyOp, source_step]
    by_cases hp : p.length ≠ 0
    · rw [if_pos hp]
      intro e he
      simp only [List.mem_map] at he
      obtain ⟨s, _, rfl⟩ := he
      exact sink_enqueue_length_le _ _
    · rw [if_neg hp]
      exact hd
  | sinkAttach id =>
    simp only [applyOp]
    by_cases hin : (lookupSink d.sinks id).isSome
    · rw [if_pos hin]
      exact hd
    · rw [if_neg hin]
      intro e he
      simp only [List.mem_append, List.mem_singleton] at he
      rcases he with he | he
      · exact hd e he
      · subst he
        have := seedQueue_length_le d
        simp only [QUEUE_SIZE]
        omega
  | sinkDrop id =>
    intro e he
    exact hd e (mem_removeSink he)
  | sinkGet id =>
    simp only [applyOp]
    cases hq : lookupSink d.sinks id with
    | none => exact hd
    | some q =>
      cases q with
      | nil => exact hd
      | cons x rest =>
        intro e he
        simp only [List.mem_map] at he
        obtain ⟨s, hs, rfl⟩ := he
        by_cases hsid : s.1 = id
        · simp only [if_pos hsid]
          have := hd _ (lookupSink_mem hq)
          simp only [List.length_cons] at this
          show rest.length ≤ QUEUE_SIZE
          omega
        · simp only [if_neg hsid]
          exact hd s hs

theorem queues_bounded_foldl (ops : List DSOp) (d : DataSet)
    (hd : ∀ e ∈ d.sinks, e.2.length ≤ QUEUE_SIZE) :
    ∀ e ∈ (ops.foldl applyOp d).sinks, e.2.length ≤ QUEUE_SIZE := by
  induction ops generalizing d with
  | nil => exact hd
  | cons op rest ih =>
    simp only [List.foldl_cons]
    exact ih (applyOp d op) (applyOp_queues_bounded d op hd)

/-- C2: Drop-oldest enqueue.  If a sink queue holds fewer than
`QUEUE_SIZE = 5` items, the new item is appended; if it is full, all current
items are discarded and only the new item is placed on it; the result never
exceeds `QUEUE_SIZE` items, and consequently in every reachable dataset
state every sink's queue has length at most `QUEUE_SIZE`. -/
theorem queue_drop_oldest (q : List Bytes) (item : Bytes) :
    (q.length < QUEUE_SIZE → sink_enqueue q item = q ++ [item]) ∧
    (QUEUE_SIZE ≤ q.length → sink_enqueue q item = [item]) ∧
    (sink_enqueue q item).length ≤ QUEUE_SIZE ∧
    (∀ ops : List DSOp, ∀ e ∈ (reach ops).sinks, e.2.length ≤ QUEUE_SIZE) := by
  refine ⟨?_, ?_, sink_enqueue_length_le q item, ?_⟩
  · intro h
    simp [sink_enqueue, h]
  · intro h
    unfold sink_enqueue
    rw [if_neg (Nat.not_lt.mpr h), queue_flush_and_put_eq]
  · intro ops
    exact queues_bounded_foldl ops DataSet.init (by simp [DataSet.init])

/-- Witness for C2: a full queue is flushed down to its newest item; a
queue with room appends. -/
theorem queue_drop_oldest_witness :
    sink_enqueue [[1], [2], [3], [4], [5]] [9] = [[9]] ∧
    sink_enqueue [[1]] [9] = [[1], [9]] := by
  have h5 := queue_drop_oldest [[1], [2], [3], [4], [5]] [9]
  have h1 := queue_drop_oldest [[1]] [9]
  exact ⟨h5.2.1 (by decide), h1.1 (by decide)⟩

/-- C1: Source-loop frame handling.  An empty payload (keepalive) changes
nothing in the dataset; a non-empty payload is stored as `latest`
(`self.data`), leaves the source attachment alone, keeps the same set of
sinks, and enqueues the payload with drop-oldest semantics onto every
currently attached sink's queue. -/
theorem source_step_frames (d : DataSet) (p : Bytes) :
    (p.length = 0 → source_step d p = d) ∧
    (p.length ≠ 0 →
      (source_step d p).data = some p ∧
      (source_step d p).source = d.source ∧
      (source_step d p).sinks.map Prod.fst = d.sinks.map Prod.fst ∧
      ∀ id q, (id, q) ∈ d.sinks →
        (id, sink_enqueue q p) ∈ (source_step d p).sinks) := by
  constructor
  · intro h
    simp [source_step, h]
  · intro h
    refine ⟨?_, ?_, ?_, ?_⟩
    · simp [source_step, h]
    · simp [source_step, h]
    · simp only [source_step, if_pos h, List.map_map]
      rfl
    · intro id q hq
      simp only [source_step, if_pos h]
      exact List.mem_map.mpr ⟨(id, q), hq, rfl⟩

/-- Witness for C1 on a dataset with one sink: the empty frame is inert,
the payload `[9]` becomes `latest` and lands on the sink's queue. -/
theorem source_step_frames_witness :
    source_step ⟨some 1, [(2, [])], some [7]⟩ [] = ⟨some 1, [(2, [])], some [7]⟩ ∧
    (source_step ⟨some 1, [(2, [])], some [7]⟩ [9]).data = some [9] ∧
    (2, sink_enqueue [] [9]) ∈ (source_step ⟨some 1, [(2, [])], some [7]⟩ [9]).sinks := by
  have h0 := source_step_frames ⟨some 1, [(2, [])], some [7]⟩ []
  have h9 := source_step_frames ⟨some 1, [(2, [])], some [7]⟩ [9]
  exact ⟨h0.1 rfl, (h9.2 (by decide)).1, (h9.2 (by decide)).2.2.2 2 [] (by decide)⟩

/-! ### Per-sink ordering -/

theorem sinkStep_sublist (s : SinkTrace) (ev : SinkEv) (pre : List Bytes)
    (h : (s.received ++ s.queue).Sublist (pre ++ nonEmptySent s)) :
    ((sinkStep s ev).received ++ (sinkStep s ev).queue).Sublist
      (pre ++ nonEmptySent (sinkStep s ev)) := by
  obtain ⟨queue, received, sent⟩ := s
  simp only [nonEmptySent] at h ⊢
  cases ev with
  | srcSend p =>
    by_cases hp : p.length ≠ 0
    · simp only [sinkStep, if_pos hp, List.filter_append]
      have hpne : p ≠ [] := fun h0 => hp (by simp [h0])
      have hfp : [p].filter (fun x => decide (x.length ≠ 0)) = [p] := by simp [hp, hpne]
      rw [hfp]
      unfold sink_enqueue
      by_cases hq : queue.length < QUEUE_SIZE
      · rw [if_pos hq, ← List.append_assoc, ← List.append_assoc]
        exact h.append (List.Sublist.refl [p])
      · rw [if_neg hq, queue_flush_and_put_eq, ← List.append_assoc]
        exact ((List.sublist_append_left received queue).trans h).append
          (List.Sublist.refl [p])
    · simp only [sinkStep, if_neg hp, List.filter_append]
      have hp0 : p.length = 0 := by omega
      have hpe : p = [] := List.length_eq_zero.mp hp0
      have hfp : [p].filter (fun x => decide (x.length ≠ 0)) = [] := by simp [hpe]
      rw [hfp, List.append_nil]
      exact h
  | dequeue =>
    cases queue with
    | nil => exact h
    | cons x rest =>
      simp only [sinkStep]
      rw [List.append_assoc, List.singleton_append]
      exact h

theorem sinkRun_sublist (evs : List SinkEv) (s : SinkTrace) (pre : List Bytes)
    (h : (s.received ++ s.queue).Sublist (pre ++ nonEmptySent s)) :
    ((sinkRun s evs).received ++ (sinkRun s evs).queue).Sublist
      (pre ++ nonEmptySent (sinkRun s evs)) := by
  induction evs generalizing s with
  | nil => exact h
  | cons ev rest ih =>
    simp only [sinkRun, List.foldl_cons] at *
    exact ih (sinkStep s ev) (sinkStep_sublist s ev pre h)

/-- C5: Per-sink ordering.  For every trace of source sends interleaved with
one sink's dequeues, starting from an empty queue, the sequence of payloads
the sink has taken from its queue is a subsequence of the sequence of
non-empty payloads the source sent: drop-oldest overflow may remove
payloads, but never reorders them. -/
theorem sink_receives_subsequence (evs : List SinkEv) :
    (sinkRun ⟨[], [], []⟩ evs).received.Sublist
      (nonEmptySent (sinkRun ⟨[], [], []⟩ evs)) := by
  have h := sinkRun_sublist evs ⟨[], [], []⟩ [] (by simp [nonEmptySent])
  have h2 : (sinkRun ⟨[], [], []⟩ evs).received.Sublist
      ((sinkRun ⟨[], [], []⟩ evs).received ++ (sinkRun ⟨[], [], []⟩ evs).queue) :=
    List.sublist_append_left _ _
  simpa using h2.trans h

/-- C6: Seeding a new sink.  When a sink attaches to a dataset whose
`latest` payload is present (and, per the `if self.data:` guard, non-empty),
that payload is the sole content of the new sink's queue; and from that
seeded start, whatever the sink subsequently receives is a subsequence of
the seed followed by the later non-empty source payloads — so the sink can
only receive the seed before any payload sent after the attachment. -/
theorem sink_seeded_with_latest (d : DataSet) (b : Bytes) (id : Nat)
    (hd : d.data = some b) (hb : b.length ≠ 0)
    (hnew : lookupSink d.sinks id = none) :
    (applyOp d (DSOp.sinkAttach id)).sinks = d.sinks ++ [(id, [b])] ∧
    ∀ evs, (sinkRun ⟨[b], [], []⟩ evs).received.Sublist
      (b :: nonEmptySent (sinkRun ⟨[b], [], []⟩ evs)) := by
  constructor
  · simp only [applyOp, hnew, Option.isSome_none, Bool.false_eq_true, if_false]
    simp [seedQueue, hd, hb]
  · intro evs
    have hinit : ((⟨[b], [], []⟩ : SinkTrace).received ++
        (⟨[b], [], []⟩ : SinkTrace).queue).Sublist
        ([b] ++ nonEmptySent ⟨[b], [], []⟩) := by
      simp only [nonEmptySent, List.filter_nil, List.append_nil, List.nil_append]
      exact List.Sublist.refl [b]
    have h := sinkRun_sublist evs ⟨[b], [], []⟩ [b] hinit
    have h2 := List.sublist_append_left (sinkRun ⟨[b], [], []⟩ evs).received
      (sinkRun ⟨[b], [], []⟩ evs).queue
    simpa using h2.trans h

/-- Witness for C6: a sink attaching to a dataset whose `latest` is `[7]`
starts with exactly `[[7]]` queued, and after one dequeue its receipts are
a subsequence of `[7]` followed by later sends. -/
theorem sink_seeded_with_latest_witness :
    (applyOp ⟨some 1, [], some [7]⟩ (DSOp.sinkAttach 2)).sinks = [] ++ [(2, [[7]])] ∧
    (sinkRun ⟨[[7]], [], []⟩ [SinkEv.dequeue]).received.Sublist
      ([7] :: nonEmptySent (sinkRun ⟨[[7]], [], []⟩ [SinkEv.dequeue])) := by
  have h := sink_seeded_with_latest ⟨some 1, [], some [7]⟩ [7] 2 rfl (by decide) rfl
  exact ⟨h.1, h.2 [SinkEv.dequeue]⟩

/-! ### Registry lemmas -/

theorem lookupDS_append_right (r : Registry) (n : Bytes) (d : DataSet)
    (h : lookupDS r n = none) : lookupDS (r ++ [(n, d)]) n = some d := by
  induction r with
  | nil => simp [lookupDS]
  | cons hd tl ih =>
    obtain ⟨k, dd⟩ := hd
    simp only [lookupDS, List.cons_append] at h ⊢
    by_cases hk : k = n
    · rw [if_pos hk] at h
      exact absurd h (by simp)
    · rw [if_neg hk] at h ⊢
      exact ih h

theorem updateDS_append (r : Registry) (n : Bytes) (d d' : DataSet)
    (h : lookupDS r n = none) :
    updateDS (r ++ [(n, d)]) n d' = r ++ [(n, d')] := by
  induction r with
  | nil => simp [updateDS]
  | cons hd tl ih =>
    obtain ⟨k, dd⟩ := hd
    simp only [lookupDS] at h
    by_cases hk : k = n
    · rw [if_pos hk] at h
      exact absurd h (by simp)
    · rw [if_neg hk] at h
      simp only [List.cons_append, updateDS, if_neg hk, List.append_eq]
      rw [ih h]

theorem lookupDS_updateDS_self (r : Registry) (n : Bytes) (d d' : DataSet)
    (h : lookupDS r n = some d) :
    lookupDS (updateDS r n d') n = some d' := by
  induction r with
  | nil => simp [lookupDS] at h
  | cons hd tl ih =>
    obtain ⟨k, dd⟩ := hd
    simp only [lookupDS, updateDS] at h ⊢
    by_cases hk : k = n
    · rw [if_pos hk]
      simp [lookupDS, hk]
    · rw [if_neg hk] at h
      rw [if_neg hk]
      simp only [lookupDS, if_neg hk]
      exact ih h

theorem updateDS_keys (r : Registry) (n : Bytes) (d' : DataSet) :
    (updateDS r n d').map Prod.fst = r.map Prod.fst := by
  induction r with
  | nil => rfl
  | cons hd tl ih =>
    obtain ⟨k, dd⟩ := hd
    simp only [updateDS]
    by_cases hk : k = n
    · rw [if_pos hk]
      simp
    · rw [if_neg hk]
      simp [ih]

theorem lookupDS_mem_keys {r : Registry} {n : Bytes} {d : DataSet}
    (h : lookupDS r n = some d) : n ∈ r.map Prod.fst := by
  induction r with
  | nil => simp [lookupDS] at h
  | cons hd tl ih =>
    obtain ⟨k, dd⟩ := hd
    simp only [lookupDS] at h
    by_cases hk : k = n
    · simp [hk]
    · rw [if_neg hk] at h
      simp [ih h]

/-- C4: At most one source per dataset.  A dataset's source field holds at
most one attachment by construction; a source-attach negotiation for a name
that is not registered creates the dataset and attaches the client as its
source; a source-attach for a dataset that already has a live source is
rejected (the connection is closed) and the registry — including the
existing source — is left entirely unchanged. -/
theorem single_source_per_dataset (r : Registry) (name : Bytes) (sid : Nat) :
    (∀ d : DataSet, (d.source.elim 0 fun _ => 1) ≤ 1) ∧
    (lookupDS r name = none →
      source_attach r name sid =
        (true, r ++ [(name, { source := some sid, sinks := [], data := none })])) ∧
    (∀ d s, lookupDS r name = some d → d.source = some s →
      source_attach r name sid = (false, r)) ∧
    (∀ d s env, lookupDS r name = some d → d.source = some s →
      env.first = RecvResult.ok NEGOTIATION_SOURCE →
      env.second = RecvResult.ok name →
      validUTF8 name = true →
      (negotiation r sid env).closedByHandler = true ∧
      (negotiation r sid env).attached = none ∧
      (negotiation r sid env).registry = r) := by
  have hreject : ∀ d s, lookupDS r name = some d → d.source = some s →
      source_attach r name sid = (false, r) := by
    intro d s hl hs
    simp only [source_attach, hl, Option.isSome_some, if_true, hs]
  refine ⟨?_, ?_, hreject, ?_⟩
  · intro d
    cases d.source <;> simp [Option.elim]
  · intro h
    have h1 : lookupDS (r ++ [(name, DataSet.init)]) name = some DataSet.init :=
      lookupDS_append_right r name DataSet.init h
    simp only [source_attach, h, Option.isSome_none, Bool.false_eq_true, if_false, h1]
    rw [if_neg (by simp [DataSet.init])]
    rw [updateDS_append r name DataSet.init _ h]
    rfl
  · intro d s env hl hs hf hsec hv
    obtain ⟨first, second, sendOk⟩ := env
    simp only at hf hsec
    subst hf
    subst hsec
    constructor <;> [skip; constructor] <;>
      simp [negotiation, (by decide : ¬NEGOTIATION_SOURCE = NEGOTIATION_INFO), hv,
        hreject d s hl hs]

/-- Witness for C4: attaching a source to the empty registry creates and
claims the dataset `[97]`; a second source attempt for `[97]` is rejected
with the registry unchanged. -/
theorem single_source_per_dataset_witness :
    source_attach [] [97] 3 = (true, [] ++ [([97], ⟨some 3, [], none⟩)]) ∧
    source_attach [([97], ⟨some 3, [], none⟩)] [97] 5 =
      (false, [([97], ⟨some 3, [], none⟩)]) ∧
    (negotiation [([97], ⟨some 3, [], none⟩)] 5
      ⟨RecvResult.ok NEGOTIATION_SOURCE, RecvResult.ok [97], true⟩).closedByHandler
      = true := by
  have h1 := (single_source_per_dataset [] [97] 3).2.1 rfl
  have h2 := (single_source_per_dataset [([97], ⟨some 3, [], none⟩)] [97] 5).2.2.1
    ⟨some 3, [], none⟩ 3 rfl rfl
  have h3 := ((single_source_per_dataset [([97], ⟨some 3, [], none⟩)] [97] 5).2.2.2
    ⟨some 3, [], none⟩ 3
    ⟨RecvResult.ok NEGOTIATION_SOURCE, RecvResult.ok [97], true⟩
    rfl rfl rfl rfl (by decide)).1
  exact ⟨h1, h2, h3⟩

/-- C7: Info requests.  An info negotiation (role tag `0xDE`) is answered
with one framed message whose payload is the comma-joined UTF-8 list of the
registered dataset names — the empty payload when no datasets exist — after
which the connection is closed, no loop is entered, and the registry is
unchanged; moreover any successful source attach for name `N` leaves `N`
among the registered names that a subsequent info request reports. -/
theorem info_request_response (r : Registry) (cid : Nat) (env : NegEnv)
    (hfirst : env.first = RecvResult.ok NEGOTIATION_INFO)
    (hsend : env.infoSendOk = true) :
    (negotiation r cid env).sentInfo = some (joinBytes (r.map Prod.fst)) ∧
    (negotiation r cid env).registry = r ∧
    (negotiation r cid env).closedByHandler = true ∧
    (negotiation r cid env).attached = none ∧
    (r = [] → (negotiation r cid env).sentInfo = some []) ∧
    (∀ name sid r2, source_attach r name sid = (true, r2) →
      name ∈ r2.map Prod.fst) := by
  obtain ⟨first, second, sendOk⟩ := env
  simp only at hfirst hsend
  subst hfirst hsend
  have hres : negotiation r cid ⟨RecvResult.ok NEGOTIATION_INFO, second, true⟩ =
      { registry := r, closedByHandler := true, attached := none,
        sentInfo := some (infoPayload r), raised := false } := by
    simp [negotiation]
  rw [hres]
  refine ⟨rfl, rfl, rfl, rfl, ?_, ?_⟩
  · intro hr
    subst hr
    rfl
  · intro name sid r2 hatt
    cases hl : lookupDS (if (lookupDS r name).isSome then r
        else r ++ [(name, DataSet.init)]) name with
    | none =>
      simp only [source_attach, hl] at hatt
      simp at hatt
    | some d =>
      simp only [source_attach, hl] at hatt
      by_cases hs : d.source.isSome
      · rw [if_pos hs] at hatt
        simp at hatt
      · rw [if_neg hs] at hatt
        simp only [Prod.mk.injEq] at hatt
        obtain ⟨-, hr2⟩ := hatt
        subst hr2
        rw [updateDS_keys]
        exact lookupDS_mem_keys hl

/-- Witness for C7 on a registry holding dataset `[97]`: the info reply is
the joined name list, the handler closes, and after a source attach for
`[98]` that name is registered. -/
theorem info_request_response_witness :
    (negotiation [([97], DataSet.init)] 0
        ⟨RecvResult.ok NEGOTIATION_INFO, RecvResult.fail, true⟩).sentInfo =
      some (joinBytes (([([97], DataSet.init)] : Registry).map Prod.fst)) ∧
    (negotiation [([97], DataSet.init)] 0
        ⟨RecvResult.ok NEGOTIATION_INFO, RecvResult.fail, true⟩).closedByHandler = true ∧
    [98] ∈ (([([97], DataSet.init), ([98], ⟨some 4, [], none⟩)]) : Registry).map Prod.fst := by
  have h := info_request_response [([97], DataSet.init)] 0
    ⟨RecvResult.ok NEGOTIATION_INFO, RecvResult.fail, true⟩ rfl rfl
  exact ⟨h.1, h.2.2.1, h.2.2.2.2.2 [98] 4 [([97], DataSet.init), ([98], ⟨some 4, [], none⟩)]
    (by decide)⟩

/-! ### Source-loop termination and the `latest` invariant -/

theorem source_loop_run (d : DataSet) (ps : List Bytes) :
    source_loop d (ps.map RecvResult.ok ++ [RecvResult.fail]) =
      { ps.foldl source_step d with source := none } := by
  induction ps generalizing d with
  | nil => rfl
  | cons p rest ih =>
    simp only [List.map_cons, List.cons_append, source_loop, List.foldl_cons]
    exact ih (source_step d p)

/-- C9: Source termination effect.  When the source loop ends because a
receive failed (timeout or peer closed), after any number of successfully
processed frames, only the dataset's `source` field is cleared: the sinks
mapping and the retained `latest` payload are those produced by the
processed frames, the dataset's name is still registered, and the registry
maps it to the dataset with just `source` removed. -/
theorem source_drop_preserves (r : Registry) (name : Bytes) (d : DataSet)
    (ps : List Bytes) (h : lookupDS r name = some d) :
    (source_loop d (ps.map RecvResult.ok ++ [RecvResult.fail])).source = none ∧
    (source_loop d (ps.map RecvResult.ok ++ [RecvResult.fail])).sinks =
      (ps.foldl source_step d).sinks ∧
    (source_loop d (ps.map RecvResult.ok ++ [RecvResult.fail])).data =
      (ps.foldl source_step d).data ∧
    (updateDS r name
        (source_loop d (ps.map RecvResult.ok ++ [RecvResult.fail]))).map Prod.fst =
      r.map Prod.fst ∧
    lookupDS
        (updateDS r name (source_loop d (ps.map RecvResult.ok ++ [RecvResult.fail])))
        name =
      some (source_loop d (ps.map RecvResult.ok ++ [RecvResult.fail])) := by
  rw [source_loop_run]
  exact ⟨rfl, rfl, rfl, updateDS_keys r name _,
    lookupDS_updateDS_self r name d _ h⟩

/-- Witness for C9: a registry with dataset `[97]` whose source fails after
one payload frame `[8]` keeps the dataset, its sink, and `latest = [8]`,
with only the source cleared. -/
theorem source_drop_preserves_witness :
    (source_loop ⟨some 1, [(2, [])], some [7]⟩
      ([[8]].map RecvResult.ok ++ [RecvResult.fail])).source = none ∧
    (source_loop ⟨some 1, [(2, [])], some [7]⟩
      ([[8]].map RecvResult.ok ++ [RecvResult.fail])).sinks =
      ([[8]].foldl source_step ⟨some 1, [(2, [])], some [7]⟩).sinks ∧
    (source_loop ⟨some 1, [(2, [])], some [7]⟩
      ([[8]].map RecvResult.ok ++ [RecvResult.fail])).data =
      ([[8]].foldl source_step ⟨some 1, [(2, [])], some [7]⟩).data ∧
    (updateDS [([97], ⟨some 1, [(2, [])], some [7]⟩)] [97]
        (source_loop ⟨some 1, [(2, [])], some [7]⟩
          ([[8]].map RecvResult.ok ++ [RecvResult.fail]))).map Prod.fst =
      ([([97], ⟨some 1, [(2, [])], some [7]⟩)] : Registry).map Prod.fst ∧
    lookupDS
        (updateDS [([97], ⟨some 1, [(2, [])], some [7]⟩)] [97]
          (source_loop ⟨some 1, [(2, [])], some [7]⟩
            ([[8]].map RecvResult.ok ++ [RecvResult.fail]))) [97] =
      some (source_loop ⟨some 1, [(2, [])], some [7]⟩
        ([[8]].map RecvResult.ok ++ [RecvResult.fail])) :=
  source_drop_preserves [([97], ⟨some 1, [(2, [])], some [7]⟩)] [97]
    ⟨some 1, [(2, [])], some [7]⟩ [[8]] rfl

theorem applyOp_data (d : DataSet) (op : DSOp) :
    (applyOp d op).data = d.data ∨
    ∃ p, (applyOp d op).data = some p ∧ p.length ≠ 0 := by
  cases op with
  | srcRecv p =>
    by_cases hp : p.length ≠ 0
    · right
      exact ⟨p, by simp [applyOp, source_step, hp], hp⟩
    · left
      simp [applyOp, source_step, hp]
  | srcAttach sid => left; rfl
  | srcDrop => left; rfl
  | sinkAttach id =>
    left
    simp only [applyOp]
    split <;> rfl
  | sinkDrop id => left; rfl
  | sinkGet id =>
    left
    simp only [applyOp]
    split <;> rfl

theorem data_nonempty_foldl (ops : List DSOp) (d : DataSet)
    (hd : ∀ b, d.data = some b → b.length ≠ 0) :
    ∀ b, (ops.foldl applyOp d).data = some b → b.length ≠ 0 := by
  induction ops generalizing d with
  | nil => exact hd
  | cons op rest ih =>
    simp only [List.foldl_cons]
    apply ih
    intro b hb
    rcases applyOp_data d op with heq | ⟨p, hp1, hp2⟩
    · rw [heq] at hb
      exact hd b hb
    · rw [hp1] at hb
      simp only [Option.some.injEq] at hb
      subst hb
      exact hp2

/-- C10: The `latest` payload (`_DataSet.data`) is absent or non-empty in
every reachable dataset state — the empty keepalive is never stored — and
the `if self.data:` guard of `run_sink` means no sink is ever seeded with
an empty frame. -/
theorem latest_never_empty (ops : List DSOp) :
    (∀ b, (reach ops).data = some b → b.length ≠ 0) ∧
    (∀ d : DataSet, [] ∉ seedQueue d) := by
  constructor
  · exact data_nonempty_foldl ops DataSet.init (by simp [DataSet.init])
  · intro d
    cases hd : d.data with
    | none => simp [seedQueue, hd]
    | some b =>
      by_cases hb : b.length ≠ 0
      · simp only [seedQueue, hd, if_pos hb, List.mem_singleton]
        intro hmem
        exact hb (by simp [← hmem])
      · simp [seedQueue, hd, hb]

/-- Witness for C10: after a source attaches and delivers `[7]`, the
reachable `latest` is the non-empty `[7]`, and a dataset holding it seeds
no empty frame. -/
theorem latest_never_empty_witness :
    (reach [DSOp.srcAttach 1, DSOp.srcRecv [7]]).data = some [7] ∧
    ([7] : Bytes).length ≠ 0 ∧ [] ∉ seedQueue ⟨some 1, [], some [7]⟩ := by
  have h := latest_never_empty [DSOp.srcAttach 1, DSOp.srcRecv [7]]
  exact ⟨by decide, h.1 [7] (by decide), h.2 ⟨some 1, [], some [7]⟩⟩

/-! ### Negotiation error handling -/

/-- Counterexample to C8 as stated: a source client whose dataset-name frame
is the single byte `0xFF` — not valid UTF-8 — makes
`dataset_name_bytes.decode()` raise `UnicodeDecodeError`, which no `except`
clause of `_negotiation` catches: the error escapes the handler and the
handler does not close the connection. -/
theorem negotiation_decode_error_escapes :
    (negotiation [] 0
      ⟨RecvResult.ok NEGOTIATION_SOURCE, RecvResult.ok [0xFF], true⟩).raised = true ∧
    (negotiation [] 0
      ⟨RecvResult.ok NEGOTIATION_SOURCE, RecvResult.ok [0xFF], true⟩).closedByHandler
      = false := by
  decide

/-- C8 amended: every framing failure or timeout during negotiation, every
unknown role tag, and every name-frame failure is absorbed by the handler
(no exception escapes) and ends with the connection closed; the sole
negotiation-phase failure that escapes the handler — without closing the
connection — is a source/sink name frame that is not valid UTF-8, whose
`UnicodeDecodeError` is caught by no `except` clause. -/
theorem negotiation_errors_closed (r : Registry) (cid : Nat) (env : NegEnv) :
    (env.first = RecvResult.fail →
      (negotiation r cid env).raised = false ∧
      (negotiation r cid env).closedByHandler = true) ∧
    (∀ t, env.first = RecvResult.ok t → t ≠ NEGOTIATION_INFO →
      t ≠ NEGOTIATION_SOURCE → t ≠ NEGOTIATION_SINK →
      (negotiation r cid env).raised = false ∧
      (negotiation r cid env).closedByHandler = true) ∧
    (env.first = RecvResult.ok NEGOTIATION_INFO →
      (negotiation r cid env).raised = false ∧
      (negotiation r cid env).closedByHandler = true) ∧
    ((env.first = RecvResult.ok NEGOTIATION_SOURCE ∨
        env.first = RecvResult.ok NEGOTIATION_SINK) →
      env.second = RecvResult.fail →
      (negotiation r cid env).raised = false ∧
      (negotiation r cid env).closedByHandler = true) ∧
    ((negotiation r cid env).raised = true →
      ∃ nb, env.second = RecvResult.ok nb ∧ validUTF8 nb = false ∧
        (env.first = RecvResult.ok NEGOTIATION_SOURCE ∨
          env.first = RecvResult.ok NEGOTIATION_SINK) ∧
        (negotiation r cid env).closedByHandler = false) := by
  obtain ⟨first, second, sendOk⟩ := env
  refine ⟨?_, ?_, ?_, ?_, ?_⟩
  · intro hf
    simp only at hf
    subst hf
    simp [negotiation]
  · intro t hf h1 h2 h3
    simp only at hf
    subst hf
    constructor <;> simp [negotiation, h1, h2, h3]
  · intro hf
    simp only at hf
    subst hf
    simp [negotiation]
  · intro hf hs
    simp only at hf hs
    subst hs
    rcases hf with hf | hf <;> subst hf
    · constructor <;>
        simp [negotiation, (by decide : ¬NEGOTIATION_SOURCE = NEGOTIATION_INFO)]
    · constructor <;>
        simp [negotiation, (by decide : ¬NEGOTIATION_SINK = NEGOTIATION_INFO),
          (by decide : ¬NEGOTIATION_SINK = NEGOTIATION_SOURCE)]
  · intro hr
    cases first with
    | fail => simp [negotiation] at hr
    | ok t =>
      by_cases h1 : t = NEGOTIATION_INFO
      · subst h1
        simp [negotiation] at hr
      · by_cases h2 : t = NEGOTIATION_SOURCE
        · subst h2
          cases second with
          | fail =>
            simp [negotiation,
              (by decide : ¬NEGOTIATION_SOURCE = NEGOTIATION_INFO)] at hr
          | ok nb =>
            by_cases hv : validUTF8 nb
            · exfalso
              cases hsa : source_attach r nb cid with
              | mk ok reg =>
                cases ok <;>
                  simp [negotiation, hv, hsa,
                    (by decide : ¬NEGOTIATION_SOURCE = NEGOTIATION_INFO)] at hr
            · refine ⟨nb, rfl, by simpa using hv, Or.inl rfl, ?_⟩
              simp [negotiation, hv,
                (by decide : ¬NEGOTIATION_SOURCE = NEGOTIATION_INFO)]
        · by_cases h3 : t = NEGOTIATION_SINK
          · subst h3
            cases second with
            | fail =>
              simp [negotiation,
                (by decide : ¬NEGOTIATION_SINK = NEGOTIATION_INFO),
                (by decide : ¬NEGOTIATION_SINK = NEGOTIATION_SOURCE)] at hr
            | ok nb =>
              by_cases hv : validUTF8 nb
              · exfalso
                cases hsa : sink_attach r nb cid with
                | mk ok reg =>
                  cases ok <;>
                    simp [negotiation, hv, hsa,
                      (by decide : ¬NEGOTIATION_SINK = NEGOTIATION_INFO),
                      (by decide : ¬NEGOTIATION_SINK = NEGOTIATION_SOURCE)] at hr
              · refine ⟨nb, rfl, by simpa using hv, Or.inr rfl, ?_⟩
                simp [negotiation, hv,
                  (by decide : ¬NEGOTIATION_SINK = NEGOTIATION_INFO),
                  (by decide : ¬NEGOTIATION_SINK = NEGOTIATION_SOURCE)]
          · simp [negotiation, h1, h2, h3] at hr

/-- Witness for the amended C8: a client whose first frame fails is absorbed
and closed; a sink client whose name frame fails is absorbed and closed. -/
theorem negotiation_errors_closed_witness :
    ((negotiation [] 0 ⟨RecvResult.fail, RecvResult.fail, true⟩).raised = false ∧
      (negotiation [] 0 ⟨RecvResult.fail, RecvResult.fail, true⟩).closedByHandler
        = true) ∧
    ((negotiation [] 0
        ⟨RecvResult.ok NEGOTIATION_SINK, RecvResult.fail, true⟩).raised = false ∧
      (negotiation [] 0
        ⟨RecvResult.ok NEGOTIATION_SINK, RecvResult.fail, true⟩).closedByHandler
        = true) :=
  ⟨(negotiation_errors_closed [] 0 ⟨RecvResult.fail, RecvResult.fail, true⟩).1 rfl,
    (negotiation_errors_closed [] 0
      ⟨RecvResult.ok NEGOTIATION_SINK, RecvResult.fail, true⟩).2.2.2.1
      (Or.inr rfl) rfl⟩

end Dataserv
